import Mathlib

/-!
Verification development for the indexing-and-retrieval engine of a
RAG news summarizer.  The Python modules `app/embeddings.py`,
`app/vector_store.py`, `app/rag_chain.py` and `app/news_fetcher.py`
are shallowly embedded below; text is modelled as `List Char`,
Python dictionaries as records with optional fields, and the
persistent ChromaDB client as an association list of named
collections.  All definitions are computable.
-/

set_option maxHeartbeats 1000000

abbrev Chars := List Char

/-- Whitespace predicate used by Python str.strip on the ASCII
whitespace relevant to the splitter separators. -/
def isWs (c : Char) : Bool := c.isWhitespace

/-- Python str.strip(): drop whitespace from both ends. -/
def pyStrip (l : Chars) : Chars :=
  ((l.dropWhile isWs).reverse.dropWhile isWs).reverse

/-- Python separator.join(docs). -/
def pyJoin (sep : Chars) : List Chars → Chars
  | [] => []
  | [d] => d
  | d :: rest => d ++ sep ++ pyJoin sep rest

/-- Boolean test: pat is a leading segment of l (chars compared with ==). -/
def isPrefixB : Chars → Chars → Bool
  | [], _ => true
  | _ :: _, [] => false
  | a :: as, b :: bs => a == b && isPrefixB as bs

/-- Python re.search for an escaped literal pattern: does pat occur in l. -/
def containsSub : Chars → Chars → Bool
  | [], pat => pat.isEmpty
  | c :: rest, pat => isPrefixB pat (c :: rest) || containsSub rest pat

/-- Core of Python re.split on the literal separator sh :: st.
Second list argument holds separator characters still being consumed
after a match; third is the current segment, reversed. -/
def splitOnCore (sh : Char) (st : Chars) : Chars → Chars → Chars → List Chars
  | [], _, cur => [cur.reverse]
  | _ :: rest, _ :: ss, cur => splitOnCore sh st rest ss cur
  | c :: rest, [], cur =>
    if isPrefixB (sh :: st) (c :: rest) then
      cur.reverse :: splitOnCore sh st rest st []
    else
      splitOnCore sh st rest [] (c :: cur)

/-- langchain _split_text_with_regex with keep_separator=True (the
configuration used by RecursiveCharacterTextSplitter here): the first
piece stays plain, each later piece gets the separator re-attached in
front, and empty pieces are filtered out.  An empty separator mirrors
the list(text) branch of the Python code. -/
def split_text_with_regex (text sep : Chars) : List Chars :=
  let splits :=
    match sep with
    | [] => text.map (fun c => [c])
    | sh :: st =>
      match splitOnCore sh st text [] [] with
      | [] => []
      | p :: ps => p :: ps.map (fun q => (sh :: st) ++ q)
  splits.filter (fun s => !s.isEmpty)

/-- The popping while-loop inside langchain TextSplitter._merge_splits.
dLen is the length of the incoming split; the result is the new
(current_doc, total).  Python would fault on an empty current_doc, a
situation the loop condition makes unreachable; the embedding returns
the state unchanged there. -/
def merge_pop (cs co sepLen dLen : Int) : List Chars → Int → List Chars × Int
  | [], total => ([], total)
  | x :: xs, total =>
    if total > co ∨ (total + dLen + (if (x :: xs).length > 1 then sepLen else 0) > cs ∧ total > 0) then
      merge_pop cs co sepLen dLen xs (total - ((x.length : Int) + if xs.length ≥ 1 then sepLen else 0))
    else (x :: xs, total)

/-- Python TextSplitter._join_docs with strip_whitespace=True (the default). -/
def join_docs (docs : List Chars) (sep : Chars) : Option Chars :=
  let text := pyStrip (pyJoin sep docs)
  if text.isEmpty then none else some text

/-- Main loop of langchain TextSplitter._merge_splits over the splits. -/
def merge_loop (cs co sepLen : Int) (sep : Chars) : List Chars → List Chars → Int → List Chars → List Chars
  | [], current, _, docs => docs ++ (join_docs current sep).toList
  | d :: rest, current, total, docs =>
    let dLen : Int := d.length
    let emit := total + dLen + (if current.length > 0 then sepLen else 0) > cs ∧ current.length > 0
    let docs1 := if emit then docs ++ (join_docs current sep).toList else docs
    let ct := if emit then merge_pop cs co sepLen dLen current total else (current, total)
    let current1 := ct.1 ++ [d]
    merge_loop cs co sepLen sep rest current1 (ct.2 + dLen + (if current1.length > 1 then sepLen else 0)) docs1

/-- langchain TextSplitter._merge_splits. -/
def merge_splits (cs co : Int) (splits : List Chars) (sep : Chars) : List Chars :=
  merge_loop cs co (sep.length : Int) sep splits [] 0 []

/-- The separator-selection loop at the top of
RecursiveCharacterTextSplitter._split_text: dflt is separators[-1],
the Python initial value kept when the loop falls through. -/
def choose_sep_go (text : Chars) (dflt : Chars) : List Chars → Chars × List Chars
  | [] => (dflt, [])
  | s :: rest =>
    if s.isEmpty then ([], [])
    else if containsSub text s then (s, rest)
    else choose_sep_go text dflt rest

/-- Separator selection: returns the chosen separator together with the
remaining lower-priority separators (new_separators in the Python). -/
def choose_sep (text : Chars) (separators : List Chars) : Chars × List Chars :=
  choose_sep_go text ((separators.getLast?).getD []) separators

/-- The good-splits buffering loop of _split_text: small pieces pile up
in good and get merged whenever an oversized piece (already expanded,
carried as Sum.inr) or the end of the list is reached.  The merge
separator is "" because keep_separator=True. -/
def split_flush_go (cs co : Int) : List (Chars ⊕ List Chars) → List Chars → List Chars → List Chars
  | [], good, final => final ++ (if good.isEmpty then [] else merge_splits cs co good [])
  | Sum.inl s :: rest, good, final => split_flush_go cs co rest (good ++ [s]) final
  | Sum.inr exp :: rest, good, final =>
    split_flush_go cs co rest [] ((final ++ (if good.isEmpty then [] else merge_splits cs co good [])) ++ exp)

mutual
/-- langchain RecursiveCharacterTextSplitter._split_text with
keep_separator=True and is_separator_regex=False: choose the best
separator occurring in the text, split on it, merge runs of small
pieces, and recurse into oversized pieces with the lower-priority
separators.  Python indexes separators[-1] and is never called with an
empty separator list; the [] case is an unreachable totalization. -/
def split_text_rec (cs co : Int) : List Chars → Chars → List Chars
  | [], text => [text]
  | s0 :: srest, text =>
    let sp := choose_sep text (s0 :: srest)
    let splits := split_text_with_regex text sp.1
    split_flush_go cs co (split_tag cs co sp.2 splits) [] []
termination_by seps _ => (seps.length, 0)
decreasing_by
  refine Prod.Lex.left _ _ ?_
  have hgo : ∀ (dflt : Chars) (seps : List Chars),
      (choose_sep_go text dflt seps).2.length ≤ seps.length := by
    intro dflt seps
    induction seps with
    | nil => simp [choose_sep_go]
    | cons s rest ih =>
      simp only [choose_sep_go]
      split
      · simp
      · split
        · simp
        · exact le_trans ih (Nat.le_succ _)
  simp only [choose_sep, choose_sep_go]
  split
  · simp
  · split
    · simp
    · exact Nat.lt_succ_of_le (hgo _ srest)

/-- Tags each split of _split_text: small splits stay as Sum.inl, an
oversized split becomes Sum.inr holding either itself (no separators
left) or its recursive expansion. -/
def split_tag (cs co : Int) (nseps : List Chars) (splits : List Chars) : List (Chars ⊕ List Chars) :=
  match splits with
  | [] => []
  | s :: ss =>
    (if (s.length : Int) < cs then Sum.inl s
     else if nseps.isEmpty then Sum.inr [s]
     else Sum.inr (split_text_rec cs co nseps s)) :: split_tag cs co nseps ss
termination_by (nseps.length, splits.length + 2)
decreasing_by
  all_goals simp_wf
  all_goals (apply Prod.Lex.right ; omega)
end

/-- Defaults from config.py Settings. -/
def CHUNK_SIZE : Nat := 1000

/-- Chunk overlap default from config.py. -/
def CHUNK_OVERLAP : Nat := 200

/-- Retrieval top-k default from config.py. -/
def TOP_K_RESULTS : Nat := 5

/-- Collection name from config.py. -/
def COLLECTION_NAME : String := "news_articles"

/-- Embedding model identifier from config.py. -/
def EMBEDDING_MODEL : String := "all-MiniLM-L6-v2"

/-- The separator list configured in get_text_splitter (embeddings.py). -/
def default_separators : List Chars :=
  [['\n', '\n'], ['\n'], ['.', ' '], [' '], []]

/-- RecursiveCharacterTextSplitter.split_text with the configuration
built by get_text_splitter (chunk_size, chunk_overlap, separators,
length_function=len). -/
def split_text (s : String) : List String :=
  (split_text_rec (CHUNK_SIZE : Int) (CHUNK_OVERLAP : Int) default_separators s.data).map
    (fun l => ⟨l⟩)

/-! ## Data model: articles, documents, metadata -/

/-- Article dataclass from news_fetcher.py; published_date is carried
as the ISO-8601 string its isoformat() would produce, or none. -/
structure Article where
  id : String
  title : String
  content : String
  summary : String
  source : String
  url : String
  published_date : Option String := none
deriving DecidableEq

/-- A LangChain Document metadata dictionary as produced and consumed
in this codebase; an optional field models dict.get with a default. -/
structure DocMeta where
  article_id : Option String := none
  title : Option String := none
  source : Option String := none
  url : Option String := none
  published_date : Option String := none
  chunk_index : Option Nat := none
deriving DecidableEq

/-- A LangChain Document. -/
structure Doc where
  page_content : String
  metadata : DocMeta
deriving DecidableEq

/-- The combined text handed to the splitter in articles_to_documents:
full_text = "Title: " + article.title + blank line + article.content. -/
def full_text_of (a : Article) : String :=
  "Title: " ++ a.title ++ "\n\n" ++ a.content

/-- Per-article part of articles_to_documents (vector_store.py): chunk
the combined text and attach the article metadata plus chunk_index. -/
def docs_of_article (a : Article) : List Doc :=
  (split_text (full_text_of a)).enum.map (fun p =>
    { page_content := p.2,
      metadata := { article_id := some a.id, title := some a.title,
                    source := some a.source, url := some a.url,
                    published_date := some (a.published_date.getD ""),
                    chunk_index := some p.1 } })

/-- articles_to_documents (vector_store.py). -/
def articles_to_documents (articles : List Article) : List Doc :=
  (articles.map docs_of_article).flatten

/-! ## Vector store (vector_store.py) -/

/-- One persisted collection: insertion-ordered (chunkId, document) pairs. -/
abbrev Collection := List (String × Doc)

/-- The module-level mutable state of vector_store.py: the ChromaDB
client owning named collections, and the cached LangChain Chroma
wrapper _vector_store, modelled by the name of the collection it
wraps, or none when no wrapper is cached. -/
structure AppState where
  collections : List (String × Collection)
  vector_store : Option String
deriving DecidableEq

/-- The chromadb get_or_create_collection semantics applied by the
Chroma wrapper constructor. -/
def get_or_create_collection (st : AppState) (name : String) : AppState :=
  if (List.lookup name st.collections).isSome then st
  else { st with collections := st.collections ++ [(name, [])] }

/-- get_vector_store (vector_store.py): return the cached wrapper or
construct one over the configured collection and cache it. -/
def get_vector_store (st : AppState) : String × AppState :=
  match st.vector_store with
  | some h => (h, st)
  | none =>
    let st1 := get_or_create_collection st COLLECTION_NAME
    (COLLECTION_NAME, { st1 with vector_store := some COLLECTION_NAME })

/-- Chroma upsert-by-id of a single (id, document) pair. -/
def upsert_entry (entries : Collection) (id : String) (d : Doc) : Collection :=
  if entries.any (fun e => e.1 = id) then
    entries.map (fun e => if e.1 = id then (id, d) else e)
  else entries ++ [(id, d)]

/-- Chroma.add_documents(new_documents, ids=ids): upsert each document
under its id into the named collection. -/
def add_documents (st : AppState) (name : String) (pairs : List (String × Doc)) : AppState :=
  { st with collections := st.collections.map (fun c =>
      if c.1 = name then (c.1, pairs.foldl (fun es p => upsert_entry es p.1 p.2) c.2) else c) }

/-- The chunk id computed twice inside index_articles:
f-string article_id, underscore, chunk_index. -/
def doc_id (d : Doc) : String :=
  d.metadata.article_id.getD "" ++ "_" ++ toString (d.metadata.chunk_index.getD 0)

/-- index_articles (vector_store.py): returns the number of newly
indexed chunks together with the updated store state.  The progress
callback is a pure side channel and is not modelled; the try/except
around vector_store.get() is modelled by getD []. -/
def index_articles (st : AppState) (articles : List Article) : Nat × AppState :=
  if articles.isEmpty then (0, st)
  else
    let documents := articles_to_documents articles
    let hs := get_vector_store st
    let existing_ids := ((List.lookup hs.1 hs.2.collections).getD []).map Prod.fst
    let new_documents := documents.filter (fun d => !(existing_ids.contains (doc_id d)))
    if new_documents.isEmpty then (0, hs.2)
    else
      let ids := new_documents.map doc_id
      (new_documents.length, add_documents hs.2 hs.1 (ids.zip new_documents))

/-- The new_documents list computed inside index_articles: candidate
chunks whose id is not yet present in the wrapped collection. -/
def index_new_docs (st : AppState) (articles : List Article) : List Doc :=
  (articles_to_documents articles).filter
    (fun d => !((((List.lookup (get_vector_store st).1
      (get_vector_store st).2.collections).getD []).map Prod.fst).contains (doc_id d)))

/-- The dictionary returned by get_collection_stats. -/
structure CollStats where
  collection_name : String
  document_count : Nat
  embedding_model : Option String
  error : Option String
deriving DecidableEq

/-- get_collection_stats (vector_store.py): count of the configured
collection, or a zero-count error dictionary when the collection
cannot be read (chromadb get_collection raises on a missing one). -/
def get_collection_stats (st : AppState) : CollStats :=
  match List.lookup COLLECTION_NAME st.collections with
  | some entries =>
    { collection_name := COLLECTION_NAME, document_count := entries.length,
      embedding_model := some EMBEDDING_MODEL, error := none }
  | none =>
    { collection_name := COLLECTION_NAME, document_count := 0,
      embedding_model := none, error := some "Collection does not exist." }

/-- chromadb delete_collection: removes the named collection, failing
when it does not exist (or the backing storage fails). -/
def delete_collection (st : AppState) (name : String) : Except String AppState :=
  if (List.lookup name st.collections).isSome then
    Except.ok { st with collections := st.collections.filter (fun c => c.1 ≠ name) }
  else Except.error "Collection does not exist."

/-- clear_collection (vector_store.py) given the outcome of the
underlying delete attempt: on success the cached wrapper is reset to
none; on any failure the function returns false and leaves the whole
state, including the cached wrapper, untouched. -/
def clear_collection_with (st : AppState) (r : Except String AppState) : Bool × AppState :=
  match r with
  | Except.ok st1 => (true, { st1 with vector_store := none })
  | Except.error _ => (false, st)

/-- clear_collection (vector_store.py). -/
def clear_collection (st : AppState) : Bool × AppState :=
  clear_collection_with st (delete_collection st COLLECTION_NAME)

/-- Reachability invariant of the vector_store module state: whenever a
wrapper is cached, the collection it wraps exists.  get_vector_store
establishes it by get-or-create before caching, add_documents and
index_articles preserve it, and clear_collection resets the cache
whenever it deletes the collection — so every state the Python module
can actually reach satisfies it. -/
def cache_consistent (st : AppState) : Prop :=
  ∀ h, st.vector_store = some h → (List.lookup h st.collections).isSome = true

/-- search_similar (vector_store.py), parametric in the raw outcome of
the underlying Chroma similarity_search call: a missing k defaults to
TOP_K_RESULTS, and any search exception yields []. -/
def search_similar (raw : String → Nat → Except String (List Doc)) (query : String) (k : Option Nat) : List Doc :=
  let kk := k.getD TOP_K_RESULTS
  match raw query kk with
  | Except.ok results => results
  | Except.error _ => []

/-! ## RAG chain (rag_chain.py) -/

/-- Effective title of a document in format_documents:
metadata.get("title", "Untitled"). -/
def doc_title (d : Doc) : String := d.metadata.title.getD "Untitled"

/-- One formatted context entry of format_documents (rag_chain.py);
i is the 1-based position of the document in the retrieved list. -/
def render_part (i : Nat) (d : Doc) : String :=
  "[Article " ++ toString i ++ "]\n" ++
  "Title: " ++ doc_title d ++ "\n" ++
  "Source: " ++ d.metadata.source.getD "Unknown" ++ "\n" ++
  "Date: " ++ d.metadata.published_date.getD "" ++ "\n" ++
  "Content: " ++ d.page_content ++ "\n"

/-- The enumerate-and-deduplicate loop of format_documents: emit one
entry per unseen title, remembering seen titles; the counter advances
on every document, emitted or not. -/
def format_parts : List Doc → List String → Nat → List String
  | [], _, _ => []
  | d :: rest, seen, i =>
    if seen.contains (doc_title d) then format_parts rest seen (i + 1)
    else render_part i d :: format_parts rest (doc_title d :: seen) (i + 1)

/-- format_documents (rag_chain.py). -/
def format_documents (docs : List Doc) : String :=
  if docs.isEmpty then "No relevant articles found."
  else String.intercalate "\n---\n" (format_parts docs [] 1)

/-- The surviving (1-based position, document) pairs of the
format_documents loop; format_parts renders exactly these. -/
def kept_with_index : List Doc → List String → Nat → List (Nat × Doc)
  | [], _, _ => []
  | d :: rest, seen, i =>
    if seen.contains (doc_title d) then kept_with_index rest seen (i + 1)
    else (i, d) :: kept_with_index rest (doc_title d :: seen) (i + 1)

/-- One attribution entry produced by _extract_sources. -/
structure SourceInfo where
  title : String
  source : String
  url : String
  date : String
deriving DecidableEq

/-- The url-deduplication loop of _extract_sources (rag_chain.py):
documents whose url metadata is missing or empty are skipped. -/
def extract_sources_go : List Doc → List String → List SourceInfo
  | [], _ => []
  | d :: rest, seen =>
    let url := d.metadata.url.getD ""
    if url ≠ "" ∧ url ∉ seen then
      { title := doc_title d, source := d.metadata.source.getD "Unknown",
        url := url, date := d.metadata.published_date.getD "" } :: extract_sources_go rest (url :: seen)
    else extract_sources_go rest seen

/-- The function _extract_sources of rag_chain.py. -/
def extract_sources (docs : List Doc) : List SourceInfo :=
  extract_sources_go docs []

/-- The collaborators summarize_news observes: the vector-store module
state, the raw similarity-search outcome, the Ollama availability
probe (check_ollama_available) and the generator call (llm.invoke). -/
structure RagEnv where
  st : AppState
  search : String → Nat → Except String (List Doc)
  ollama_available : Bool
  ollama_status : String
  llm : String → Except String String

/-- The result dictionary of summarize_news; sources is none exactly
when the Python dict carries no "sources" key. -/
structure RagResult where
  summary : String
  sources : Option (List SourceInfo)
  status : String
deriving DecidableEq

/-- SUMMARY_PROMPT.format(context=..., question=...) (rag_chain.py). -/
def summary_prompt (context question : String) : String :=
  "You are a helpful news analyst assistant. Your task is to provide accurate, \nwell-structured summaries based on the news articles provided in the context.\n\nCONTEXT (Retrieved News Articles):\n"
  ++ context
  ++ "\n\nUSER QUESTION: " ++ question
  ++ "\n\nINSTRUCTIONS:\n1. Analyze the provided news articles carefully\n2. Synthesize information from multiple sources when available\n3. Provide a clear, concise summary that answers the user\x27s question\n4. Mention the sources of information when relevant\n5. If the context doesn\x27t contain enough information, acknowledge this limitation\n6. Use bullet points for key facts when appropriate\n\nSUMMARY:"

/-- summarize_news (rag_chain.py). -/
def summarize_news (env : RagEnv) (query : String) (k : Option Nat) (return_sources : Bool) : RagResult :=
  let stats := get_collection_stats env.st
  if stats.document_count = 0 then
    { summary := "No news articles have been indexed yet. Please fetch and index some articles first.",
      sources := some [], status := "no_data" }
  else
    let docs := search_similar env.search query (some (k.getD TOP_K_RESULTS))
    if docs.isEmpty then
      { summary := "No relevant articles found for your query. Try a different search term.",
        sources := some [], status := "no_results" }
    else
      let context := format_documents docs
      if !env.ollama_available then
        { summary := "⚠️ LLM not available: " ++ env.ollama_status ++ "\n\nRetrieved articles:\n\n" ++ context,
          sources := some (extract_sources docs), status := "llm_unavailable" }
      else
        match env.llm (summary_prompt context query) with
        | Except.ok s =>
          { summary := s,
            sources := if return_sources then some (extract_sources docs) else none,
            status := "success" }
        | Except.error e =>
          { summary := "Error generating summary: " ++ e ++ "\n\nRetrieved context:\n\n" ++ context,
            sources := some (extract_sources docs), status := "error" }

/-! ## Feed fetching (news_fetcher.py) -/

/-- The fields of a feedparser entry that fetch_feed consults; none
models a missing attribute.  content_value stands for
entry.content[0].get("value", "") when the content list is present
and non-empty. -/
structure FeedEntry where
  link : String
  title : String
  content_value : Option String
  description : Option String
  summary : Option String
  published_date : Option String
deriving DecidableEq

/-- The content-extraction if/elif chain of fetch_feed. -/
def entry_content (e : FeedEntry) : String :=
  match e.content_value with
  | some v => v
  | none =>
    match e.description with
    | some d => d
    | none => e.summary.getD ""

/-- Python: summary = getattr(entry, "summary", content[:500] if content else ""). -/
def entry_summary (e : FeedEntry) : String :=
  match e.summary with
  | some s => s
  | none => if entry_content e ≠ "" then (entry_content e).take 500 else ""

/-- The Article construction in fetch_feed, parametric in the article
id hash (hashlib.md5 is external to the embedding). -/
def entry_to_article (gen_id : String → String) (source_name : String) (e : FeedEntry) : Article :=
  { id := gen_id e.link, title := e.title,
    content := if entry_content e ≠ "" then entry_content e else entry_summary e,
    summary := entry_summary e, source := source_name, url := e.link,
    published_date := e.published_date }

/-! ## Claim-side definitions -/

/-- Modelled from the claim wording of C2: the length of the longest
overlap between the end of acc and the beginning of next. -/
def overlap_len_go (acc next : Chars) : Nat → Nat
  | 0 => 0
  | k + 1 => if (next.take (k + 1)).isSuffixOf acc then k + 1 else overlap_len_go acc next k

/-- Longest overlap between consecutive chunks. -/
def overlap_len (acc next : Chars) : Nat :=
  overlap_len_go acc next (min acc.length next.length)

/-- Modelled from the claim wording of C2: concatenate the chunk
sequence, removing from each later chunk its overlapping prefix with
the text accumulated so far. -/
def remove_overlap_concat : List Chars → Chars
  | [] => []
  | c :: rest => rest.foldl (fun acc d => acc ++ d.drop (overlap_len acc d)) c

/-! ## Concrete fixtures used by witnesses and counterexamples -/

/-- Article with an empty title, used to examine the Document Builder. -/
def article_fix_a : Article :=
  { id := "a1", title := "", content := "body", summary := "sum", source := "src",
    url := "https://x/1" }

/-- Article used by the indexing witness. -/
def article_fix_b : Article :=
  { id := "b1", title := "T", content := "some body text", summary := "sum", source := "src",
    url := "https://x/2", published_date := some "2024-01-15T00:00:00" }

/-- Retrieved document carrying no url metadata. -/
def doc_no_url : Doc :=
  { page_content := "chunk text",
    metadata := { article_id := some "a1", title := some "T", source := some "S",
                  published_date := some "", chunk_index := some 0 } }

/-- Retrieved document carrying a url. -/
def doc_with_url : Doc :=
  { page_content := "chunk text 2",
    metadata := { article_id := some "a2", title := some "U", source := some "S2",
                  url := some "https://x/3", published_date := some "", chunk_index := some 0 } }

/-- A store whose configured collection holds one entry. -/
def state_one_entry : AppState :=
  { collections := [(COLLECTION_NAME, [("a1_0", doc_no_url)])],
    vector_store := some COLLECTION_NAME }

/-- Environment: one indexed entry, search returns a single document
without url metadata, generator unavailable. -/
def env_no_url : RagEnv :=
  { st := state_one_entry, search := fun _ _ => Except.ok [doc_no_url],
    ollama_available := false,
    ollama_status := "Ollama is not running. Start it with: ollama serve",
    llm := fun _ => Except.ok "" }

/-- Environment: like env_no_url but the retrieved document carries a url. -/
def env_with_url : RagEnv :=
  { st := state_one_entry, search := fun _ _ => Except.ok [doc_with_url],
    ollama_available := false,
    ollama_status := "Ollama is not running. Start it with: ollama serve",
    llm := fun _ => Except.ok "summary" }

/-- Environment over an empty store. -/
def env_empty : RagEnv :=
  { st := { collections := [], vector_store := none }, search := fun _ _ => Except.ok [],
    ollama_available := true, ollama_status := "", llm := fun _ => Except.ok "summary" }

/-- Feed entry with neither content nor description, only a summary. -/
def entry_fix : FeedEntry :=
  { link := "https://x/9", title := "E", content_value := none, description := none,
    summary := some "only summary", published_date := none }

/-- Retrieved list with a duplicated title in positions 1 and 3. -/
def docs_dup_titles : List Doc := [doc_with_url, doc_no_url, doc_with_url]

/-! ## Helper lemmas -/

theorem ifx_of_sfx {α : Type} {l₁ l₂ : List α} (h : l₁ <:+ l₂) : l₁ <:+: l₂ := h.isInfix

theorem ifx_of_pfx {α : Type} {l₁ l₂ : List α} (h : l₁ <+: l₂) : l₁ <:+: l₂ := h.isInfix

theorem ifx_trans {α : Type} {a b c : List α} (h₁ : a <:+: b) (h₂ : b <:+: c) : a <:+: c :=
  h₁.trans h₂

theorem string_data_append (s t : String) : (s ++ t).data = s.data ++ t.data := by
  cases s; cases t; rfl

theorem full_text_data (a : Article) :
    (full_text_of a).data = "Title: ".data ++ a.title.data ++ ("\n\n".data ++ a.content.data) := by
  simp [full_text_of, string_data_append]

theorem lookup_cons_unfold {β : Type} (a k : String) (v : β) (xs : List (String × β)) :
    List.lookup a ((k, v) :: xs) = if a = k then some v else List.lookup a xs := by
  by_cases hk : a = k
  · simp [List.lookup, hk]
  · rw [List.lookup, if_neg hk, show (a == k) = false from beq_eq_false_iff_ne.mpr hk]

theorem lookup_filter_ne {β : Type} (a : String) :
    ∀ l : List (String × β), List.lookup a (l.filter (fun c => c.1 ≠ a)) = none := by
  intro l
  induction l with
  | nil => rfl
  | cons x xs ih =>
    rcases x with ⟨k, v⟩
    by_cases hk : k = a
    · simpa [List.filter, hk] using ih
    · simpa [List.filter, hk, lookup_cons_unfold, Ne.symm hk] using ih

theorem lookup_append_of_none {β : Type} (a : String) (l₁ l₂ : List (String × β))
    (h : List.lookup a l₁ = none) : List.lookup a (l₁ ++ l₂) = List.lookup a l₂ := by
  induction l₁ with
  | nil => simp
  | cons x xs ih =>
    rcases x with ⟨k, v⟩
    by_cases hk : a = k
    · rw [lookup_cons_unfold, if_pos hk] at h
      exact absurd h (by simp)
    · rw [lookup_cons_unfold, if_neg hk] at h
      rw [List.cons_append, lookup_cons_unfold, if_neg hk]
      exact ih h

/-! ## C6: search on a broken collection returns [] -/

/-- C6: for every query and k, a similarity search whose underlying
Chroma call raises (as it does for a non-existent or unreadable
collection) returns the empty result list rather than propagating the
exception. -/
theorem C6_search_error_returns_empty
    (raw : String → Nat → Except String (List Doc)) (query : String) (k : Option Nat) (e : String)
    (h : raw query (k.getD TOP_K_RESULTS) = Except.error e) :
    search_similar raw query k = [] := by
  simp [search_similar, h]

/-- Witness for C6 at a concrete failing backend. -/
theorem C6_witness :
    search_similar (fun _ _ => Except.error "collection missing") "ai news" none = [] :=
  C6_search_error_returns_empty _ "ai news" none "collection missing" rfl

/-! ## C10: clear_collection failure behaviour -/

/-- C10: clear_collection is a total function (never raises); with any
failing delete outcome it returns false and the state unchanged, and
whenever it reports false the state — in particular the cached
wrapper — is left untouched. -/
theorem C10_clear_failure_keeps_state :
    (∀ (st : AppState) (e : String), clear_collection_with st (Except.error e) = (false, st)) ∧
    (∀ st : AppState, (clear_collection st).1 = false →
      (clear_collection st).2 = st ∧ (clear_collection st).2.vector_store = st.vector_store) := by
  refine ⟨fun st e => rfl, fun st h => ?_⟩
  unfold clear_collection at h ⊢
  cases hd : delete_collection st COLLECTION_NAME with
  | ok st1 =>
    rw [hd] at h
    exact absurd h (by simp [clear_collection_with])
  | error e =>
    exact ⟨rfl, rfl⟩

/-- Witness for C10: deleting over an empty client fails, returns false
and leaves the cached wrapper in place. -/
theorem C10_witness :
    clear_collection_with { collections := [], vector_store := some COLLECTION_NAME }
        (Except.error "disk error")
      = (false, { collections := [], vector_store := some COLLECTION_NAME }) ∧
    (clear_collection { collections := [], vector_store := some COLLECTION_NAME }).2.vector_store
      = some COLLECTION_NAME :=
  ⟨C10_clear_failure_keeps_state.1 _ _,
   (C10_clear_failure_keeps_state.2 _ (by decide)).2⟩

/-! ## C4: empty index yields the no_data outcome -/

/-- C4: retrieval over an index reporting zero entries (including a
non-existent collection, where get_collection_stats catches the error
and reports zero) returns the no_data outcome with empty sources
instead of raising — summarize_news is total here — and that outcome
is distinct from the no_results outcome produced when the index is
non-empty but the search comes back empty. -/
theorem C4_empty_index_no_data (env : RagEnv) (query : String) (k : Option Nat) (rs : Bool) :
    ((get_collection_stats env.st).document_count = 0 →
      (summarize_news env query k rs).status = "no_data" ∧
      (summarize_news env query k rs).sources = some []) ∧
    (∀ st : AppState, List.lookup COLLECTION_NAME st.collections = none →
      (get_collection_stats st).document_count = 0) ∧
    ((get_collection_stats env.st).document_count ≠ 0 →
      search_similar env.search query (some (k.getD TOP_K_RESULTS)) = [] →
      (summarize_news env query k rs).status = "no_results") ∧
    ("no_data" : String) ≠ "no_results" := by
  refine ⟨?_, ?_, ?_, by decide⟩
  · intro h
    simp [summarize_news, h]
  · intro st h
    simp [get_collection_stats, h]
  · intro h hs
    simp [summarize_news, h, hs]

/-- Witness for C4: an empty store yields no_data with empty sources; a
one-entry store whose search returns nothing yields no_results. -/
theorem C4_witness :
    (summarize_news env_empty "tech news" none true).status = "no_data" ∧
    (summarize_news env_empty "tech news" none true).sources = some [] ∧
    (summarize_news { env_with_url with search := fun _ _ => Except.ok [] }
        "tech news" none true).status = "no_results" :=
  ⟨((C4_empty_index_no_data env_empty "tech news" none true).1 (by decide)).1,
   ((C4_empty_index_no_data env_empty "tech news" none true).1 (by decide)).2,
   (C4_empty_index_no_data { env_with_url with search := fun _ _ => Except.ok [] }
      "tech news" none true).2.2.1 (by decide) rfl⟩

/-! ## C8: successful clear invalidates the cached wrapper -/

/-- C8: after a successful clear the cached wrapper is reset to none,
the entry count observed afterwards is 0, and the next access builds a
fresh wrapper over a newly created empty collection. -/
theorem C8_clear_invalidates_cache (st : AppState)
    (h : (List.lookup COLLECTION_NAME st.collections).isSome = true) :
    (clear_collection st).1 = true ∧
    (clear_collection st).2.vector_store = none ∧
    (get_collection_stats (clear_collection st).2).document_count = 0 ∧
    (get_vector_store (clear_collection st).2).2.vector_store = some COLLECTION_NAME ∧
    List.lookup COLLECTION_NAME (get_vector_store (clear_collection st).2).2.collections
      = some [] := by
  have hclear : clear_collection st =
      (true, { collections := st.collections.filter (fun c => c.1 ≠ COLLECTION_NAME),
               vector_store := none }) := by
    unfold clear_collection delete_collection clear_collection_with
    rw [if_pos h]
  have hlf := lookup_filter_ne COLLECTION_NAME st.collections
  simp only [ne_eq, decide_not] at hlf
  refine ⟨by rw [hclear], by rw [hclear], ?_, ?_, ?_⟩
  · rw [hclear]
    simp [get_collection_stats, hlf]
  · rw [hclear]
    simp [get_vector_store, get_or_create_collection, hlf]
  · rw [hclear]
    simp only [get_vector_store, get_or_create_collection, ne_eq, decide_not, hlf,
      Option.isSome_none, Bool.false_eq_true, if_false]
    rw [lookup_append_of_none _ _ _ hlf]
    simp [lookup_cons_unfold]

/-- Witness for C8 on a one-entry store. -/
theorem C8_witness :
    (clear_collection state_one_entry).1 = true ∧
    (clear_collection state_one_entry).2.vector_store = none ∧
    (get_collection_stats (clear_collection state_one_entry).2).document_count = 0 :=
  ⟨(C8_clear_invalidates_cache state_one_entry (by decide)).1,
   (C8_clear_invalidates_cache state_one_entry (by decide)).2.1,
   (C8_clear_invalidates_cache state_one_entry (by decide)).2.2.1⟩

/-! ## C3: the combined text handed to the chunker -/

/-- C3 counterexample: for an article with an empty title the combined
text handed to the chunker is not the body alone — the Document
Builder still prepends the "Title: " prefix and the blank line,
contrary to the claim that an empty title leaves the body alone. -/
theorem C3_counterexample :
    article_fix_a.title = "" ∧ full_text_of article_fix_a ≠ article_fix_a.content :=
  ⟨rfl, by decide⟩

/-- C3 amended: the Document Builder always forms the chunked text as
the literal prefix "Title: ", the title, a blank line and the body —
also for an empty title, so the combined text never equals the body
alone; separately, the fetcher falls back to the entry summary for the
body when both the content and description fields are absent. -/
theorem C3_amended_combined_text :
    (∀ a : Article,
      (full_text_of a).data = "Title: ".data ++ a.title.data ++ ("\n\n".data ++ a.content.data)) ∧
    (∀ a : Article, full_text_of a ≠ a.content) ∧
    (∀ (gen_id : String → String) (source_name : String) (e : FeedEntry),
      e.content_value = none → e.description = none →
      (entry_to_article gen_id source_name e).content = e.summary.getD "") := by
  refine ⟨full_text_data, ?_, ?_⟩
  · intro a h
    have hd := congrArg String.data h
    rw [full_text_data a] at hd
    have hlen := congrArg List.length hd
    simp only [List.length_append] at hlen
    have h7 : ("Title: ".data).length = 7 := by decide
    have h2 : ("\n\n".data).length = 2 := by decide
    rw [h7, h2] at hlen
    omega
  · intro gen_id source_name e h1 h2
    cases hs : e.summary with
    | none => simp [entry_to_article, entry_content, entry_summary, h1, h2, hs]
    | some s =>
      by_cases hse : s = ""
      · simp [entry_to_article, entry_content, entry_summary, h1, h2, hs, hse]
      · simp [entry_to_article, entry_content, entry_summary, h1, h2, hs, hse]

/-- Witness for C3 amended at concrete inputs. -/
theorem C3_amended_witness :
    full_text_of article_fix_b ≠ article_fix_b.content ∧
    (entry_to_article (fun _ => "id9") "Src" entry_fix).content = "only summary" :=
  ⟨C3_amended_combined_text.2.1 article_fix_b,
   by rw [C3_amended_combined_text.2.2 (fun _ => "id9") "Src" entry_fix rfl rfl]; rfl⟩

/-! ## C9: source extraction omits documents without urls -/

theorem extract_sources_go_skip (docs : List Doc) :
    ∀ seen, extract_sources_go docs seen =
      extract_sources_go (docs.filter (fun d => d.metadata.url.getD "" ≠ "")) seen := by
  induction docs with
  | nil => intro seen; rfl
  | cons d rest ih =>
    intro seen
    by_cases hu : d.metadata.url.getD "" = ""
    · rw [List.filter_cons_of_neg (by simpa using hu)]
      simp only [extract_sources_go]
      rw [if_neg (by simp [hu]), ih seen]
    · rw [List.filter_cons_of_pos (by simpa using hu)]
      by_cases hseen : d.metadata.url.getD "" ∈ seen
      · simp only [extract_sources_go]
        rw [if_neg (by simp [hseen]), if_neg (by simp [hseen]), ih seen]
      · simp only [extract_sources_go]
        rw [if_pos ⟨hu, hseen⟩, if_pos ⟨hu, hseen⟩, ih (d.metadata.url.getD "" :: seen)]

theorem extract_sources_go_url_ne (docs : List Doc) :
    ∀ seen s, s ∈ extract_sources_go docs seen → s.url ≠ "" := by
  induction docs with
  | nil =>
    intro seen s h
    simp [extract_sources_go] at h
  | cons d rest ih =>
    intro seen s h
    by_cases hc : d.metadata.url.getD "" ≠ "" ∧ d.metadata.url.getD "" ∉ seen
    · simp only [extract_sources_go] at h
      rw [if_pos hc] at h
      rcases List.mem_cons.mp h with h | h
      · rw [h]
        exact hc.1
      · exact ih _ _ h
    · simp only [extract_sources_go] at h
      rw [if_neg hc] at h
      exact ih _ _ h

theorem extract_sources_go_ne_nil (docs : List Doc) :
    ∀ seen, (∃ d ∈ docs, d.metadata.url.getD "" ≠ "" ∧ d.metadata.url.getD "" ∉ seen) →
      extract_sources_go docs seen ≠ [] := by
  induction docs with
  | nil =>
    intro seen h
    rcases h with ⟨d, hd, _⟩
    simp at hd
  | cons d rest ih =>
    intro seen h
    rcases h with ⟨w, hw, hw1, hw2⟩
    by_cases hc : d.metadata.url.getD "" ≠ "" ∧ d.metadata.url.getD "" ∉ seen
    · simp only [extract_sources_go]
      rw [if_pos hc]
      simp
    · simp only [extract_sources_go]
      rw [if_neg hc]
      apply ih
      rcases List.mem_cons.mp hw with rfl | h
      · exact absurd ⟨hw1, hw2⟩ hc
      · exact ⟨w, h, hw1, hw2⟩

/-- C9: source extraction skips every document whose url metadata is
missing or empty — extraction factors through dropping those
documents, and every produced source carries a non-empty url — so the
returned source list can be empty even when the retrieved document
list and the assembled context are not. -/
theorem C9_sources_omit_missing_urls :
    (∀ (docs : List Doc) (seen : List String),
      extract_sources_go docs seen =
        extract_sources_go (docs.filter (fun d => d.metadata.url.getD "" ≠ "")) seen) ∧
    (∀ docs : List Doc, ∀ s ∈ extract_sources docs, s.url ≠ "") ∧
    (extract_sources [doc_no_url] = [] ∧ ([doc_no_url] : List Doc) ≠ [] ∧
      format_documents [doc_no_url] ≠ "No relevant articles found.") := by
  refine ⟨extract_sources_go_skip, ?_, by decide, by decide, by decide⟩
  intro docs s hs
  exact extract_sources_go_url_ne docs [] s hs

/-- Witness for C9 at concrete inputs. -/
theorem C9_witness :
    extract_sources_go [doc_no_url, doc_with_url] [] =
      extract_sources_go ([doc_no_url, doc_with_url].filter
        (fun d => d.metadata.url.getD "" ≠ "")) [] ∧
    ({ title := "U", source := "S2", url := "https://x/3", date := "" } : SourceInfo).url ≠ "" :=
  ⟨C9_sources_omit_missing_urls.1 [doc_no_url, doc_with_url] [],
   C9_sources_omit_missing_urls.2.1 [doc_with_url] _ (by decide)⟩

/-! ## C7: retrieval with an unavailable generator -/

/-- C7 counterexample: the store is non-empty, retrieval returns one
document and the generator is unavailable, so the outcome has status
llm_unavailable as claimed — yet the source list is empty, because the
single retrieved document carries no url metadata.  The claimed
"non-empty source list" fails. -/
theorem C7_counterexample :
    (summarize_news env_no_url "q" none true).status = "llm_unavailable" ∧
    search_similar env_no_url.search "q" (some (Option.getD none TOP_K_RESULTS)) ≠ [] ∧
    (summarize_news env_no_url "q" none true).sources = some [] := by
  refine ⟨?_, by decide, ?_⟩ <;> decide

/-- C7 amended: whenever the index is non-empty, retrieval returns a
non-empty document list and the generator is unavailable, the outcome
has status llm_unavailable, its source list is exactly the one
extracted from the retrieved documents — non-empty whenever at least
one retrieved document carries a non-empty url — and the summary text
contains the assembled retrieved context verbatim as a substring. -/
theorem C7_amended_llm_unavailable (env : RagEnv) (query : String) (k : Option Nat) (rs : Bool)
    (docs : List Doc)
    (hc : (get_collection_stats env.st).document_count ≠ 0)
    (hdocs : search_similar env.search query (some (k.getD TOP_K_RESULTS)) = docs)
    (hne : docs ≠ [])
    (hollama : env.ollama_available = false) :
    (summarize_news env query k rs).status = "llm_unavailable" ∧
    (summarize_news env query k rs).sources = some (extract_sources docs) ∧
    (format_documents docs).data <:+: (summarize_news env query k rs).summary.data ∧
    (docs.any (fun d => d.metadata.url.getD "" ≠ "") = true → extract_sources docs ≠ []) := by
  have hrun : summarize_news env query k rs =
      { summary := "⚠️ LLM not available: " ++ env.ollama_status
          ++ "\n\nRetrieved articles:\n\n" ++ format_documents docs,
        sources := some (extract_sources docs), status := "llm_unavailable" } := by
    simp [summarize_news, hc, hdocs, hne, hollama]
  refine ⟨by rw [hrun], by rw [hrun], ?_, ?_⟩
  · rw [hrun]
    refine ⟨("⚠️ LLM not available: " ++ env.ollama_status
      ++ "\n\nRetrieved articles:\n\n").data, [], ?_⟩
    rw [List.append_nil, ← string_data_append]
  · intro hany
    apply extract_sources_go_ne_nil docs []
    rcases List.any_eq_true.mp hany with ⟨d, hd, hurl⟩
    exact ⟨d, hd, by simpa using hurl, by simp⟩

/-- Witness for C7 amended: a retrieved document with a url yields a
non-empty source list alongside the llm_unavailable status. -/
theorem C7_amended_witness :
    (summarize_news env_with_url "q" none true).status = "llm_unavailable" ∧
    (summarize_news env_with_url "q" none true).sources = some (extract_sources [doc_with_url]) ∧
    extract_sources [doc_with_url] ≠ [] :=
  ⟨(C7_amended_llm_unavailable env_with_url "q" none true [doc_with_url]
      (by decide) rfl (by decide) rfl).1,
   (C7_amended_llm_unavailable env_with_url "q" none true [doc_with_url]
      (by decide) rfl (by decide) rfl).2.1,
   (C7_amended_llm_unavailable env_with_url "q" none true [doc_with_url]
      (by decide) rfl (by decide) rfl).2.2.2 (by decide)⟩

/-! ## C5: title deduplication in the assembled context -/

theorem contains_eq_mem (l : List String) (a : String) : l.contains a = true ↔ a ∈ l := by
  simp

theorem format_parts_eq_kept :
    ∀ (docs : List Doc) (seen : List String) (i : Nat),
      format_parts docs seen i
        = (kept_with_index docs seen i).map (fun p => render_part p.1 p.2) := by
  intro docs
  induction docs with
  | nil => intro seen i; rfl
  | cons d rest ih =>
    intro seen i
    by_cases hs : doc_title d ∈ seen
    · simp only [format_parts, kept_with_index, if_pos ((contains_eq_mem seen _).mpr hs)]
      exact ih seen (i + 1)
    · simp only [format_parts, kept_with_index,
        if_neg (fun hc => hs ((contains_eq_mem seen _).mp hc)), List.map_cons]
      rw [ih (doc_title d :: seen) (i + 1)]

theorem kept_titles_fresh :
    ∀ (docs : List Doc) (seen : List String) (i : Nat),
      (∀ t ∈ (kept_with_index docs seen i).map (fun p => doc_title p.2), t ∉ seen) ∧
      ((kept_with_index docs seen i).map (fun p => doc_title p.2)).Nodup := by
  intro docs
  induction docs with
  | nil =>
    intro seen i
    constructor <;> simp [kept_with_index]
  | cons d rest ih =>
    intro seen i
    by_cases hs : doc_title d ∈ seen
    · simp only [kept_with_index, if_pos ((contains_eq_mem seen _).mpr hs)]
      exact ih seen (i + 1)
    · simp only [kept_with_index,
        if_neg (fun hc => hs ((contains_eq_mem seen _).mp hc)), List.map_cons]
      have hfresh := (ih (doc_title d :: seen) (i + 1)).1
      have hnodup := (ih (doc_title d :: seen) (i + 1)).2
      constructor
      · intro t ht
        rcases List.mem_cons.mp ht with rfl | ht
        · exact hs
        · exact fun hmem => hfresh t ht (List.mem_cons_of_mem _ hmem)
      · refine List.nodup_cons.mpr ⟨?_, hnodup⟩
        intro hmem
        exact (hfresh _ hmem) (List.mem_cons_self _ _)

theorem kept_positions :
    ∀ (docs : List Doc) (seen : List String) (i : Nat),
      ∀ p ∈ kept_with_index docs seen i,
        doc_title p.2 ∉ seen ∧ i ≤ p.1 ∧ docs[p.1 - i]? = some p.2 ∧
        ∀ j < p.1 - i, ∀ d, docs[j]? = some d → doc_title d ≠ doc_title p.2 := by
  intro docs
  induction docs with
  | nil =>
    intro seen i p hp
    simp [kept_with_index] at hp
  | cons d rest ih =>
    intro seen i p hp
    by_cases hs : doc_title d ∈ seen
    · rw [kept_with_index, if_pos ((contains_eq_mem seen _).mpr hs)] at hp
      obtain ⟨h1, h2, h3, h4⟩ := ih seen (i + 1) p hp
      refine ⟨h1, le_trans (Nat.le_succ i) h2, ?_, ?_⟩
      · have he : p.1 - i = (p.1 - (i + 1)) + 1 := by omega
        rw [he, List.getElem?_cons_succ]
        exact h3
      · intro j hj e hje heq
        cases j with
        | zero =>
          rw [List.getElem?_cons_zero] at hje
          have hde : d = e := Option.some.inj hje
          rw [← hde] at heq
          exact h1 (heq ▸ hs)
        | succ j1 =>
          rw [List.getElem?_cons_succ] at hje
          exact h4 j1 (by omega) e hje heq
    · rw [kept_with_index, if_neg (fun hc => hs ((contains_eq_mem seen _).mp hc))] at hp
      rcases List.mem_cons.mp hp with rfl | hp
      · refine ⟨hs, le_refl i, ?_, ?_⟩
        · rw [Nat.sub_self, List.getElem?_cons_zero]
        · intro j hj
          omega
      · obtain ⟨h1, h2, h3, h4⟩ := ih (doc_title d :: seen) (i + 1) p hp
        have h1s : doc_title p.2 ∉ seen := fun hmem => h1 (List.mem_cons_of_mem _ hmem)
        have h1d : doc_title p.2 ≠ doc_title d := fun heq => h1 (heq ▸ List.mem_cons_self _ _)
        refine ⟨h1s, le_trans (Nat.le_succ i) h2, ?_, ?_⟩
        · have he : p.1 - i = (p.1 - (i + 1)) + 1 := by omega
          rw [he, List.getElem?_cons_succ]
          exact h3
        · intro j hj e hje heq
          cases j with
          | zero =>
            rw [List.getElem?_cons_zero] at hje
            have hde : d = e := Option.some.inj hje
            rw [← hde] at heq
            exact h1d heq.symm
          | succ j1 =>
            rw [List.getElem?_cons_succ] at hje
            exact h4 j1 (by omega) e hje heq

theorem kept_covers :
    ∀ (docs : List Doc) (seen : List String) (i : Nat) (j : Nat) (d : Doc),
      docs[j]? = some d →
      doc_title d ∈ seen ∨
        doc_title d ∈ (kept_with_index docs seen i).map (fun p => doc_title p.2) := by
  intro docs
  induction docs with
  | nil =>
    intro seen i j d h
    simp at h
  | cons e rest ih =>
    intro seen i j d h
    by_cases hs : doc_title e ∈ seen
    · rw [kept_with_index, if_pos ((contains_eq_mem seen _).mpr hs)]
      cases j with
      | zero =>
        rw [List.getElem?_cons_zero] at h
        left
        rw [← Option.some.inj h]
        exact hs
      | succ j1 =>
        rw [List.getElem?_cons_succ] at h
        exact ih seen (i + 1) j1 d h
    · rw [kept_with_index, if_neg (fun hc => hs ((contains_eq_mem seen _).mp hc)), List.map_cons]
      cases j with
      | zero =>
        rw [List.getElem?_cons_zero] at h
        right
        rw [← Option.some.inj h]
        exact List.mem_cons_self _ _
      | succ j1 =>
        rw [List.getElem?_cons_succ] at h
        rcases ih (doc_title e :: seen) (i + 1) j1 d h with h1 | h1
        · rcases List.mem_cons.mp h1 with heq | hseen
          · right
            rw [heq]
            exact List.mem_cons_self _ _
          · left
            exact hseen
        · right
          exact List.mem_cons_of_mem _ h1

/-- C5: the assembled context renders exactly the surviving documents;
their effective titles are pairwise distinct (at most one entry per
title), every kept entry sits at its original 1-based position and is
the first occurrence of its title, and the title of every retrieved
document — in particular of every suppressed later duplicate — is
already represented among the kept entries. -/
theorem C5_context_dedup_by_title (docs : List Doc) :
    format_documents docs
      = (if docs.isEmpty then "No relevant articles found."
         else String.intercalate "\n---\n"
           ((kept_with_index docs [] 1).map (fun p => render_part p.1 p.2))) ∧
    ((kept_with_index docs [] 1).map (fun p => doc_title p.2)).Nodup ∧
    (∀ p ∈ kept_with_index docs [] 1,
      docs[p.1 - 1]? = some p.2 ∧
      ∀ j < p.1 - 1, ∀ d, docs[j]? = some d → doc_title d ≠ doc_title p.2) ∧
    (∀ (j : Nat) (d : Doc), docs[j]? = some d →
      doc_title d ∈ (kept_with_index docs [] 1).map (fun p => doc_title p.2)) := by
  refine ⟨?_, (kept_titles_fresh docs [] 1).2, ?_, ?_⟩
  · unfold format_documents
    rw [format_parts_eq_kept]
  · intro p hp
    obtain ⟨_, _, h3, h4⟩ := kept_positions docs [] 1 p hp
    exact ⟨h3, h4⟩
  · intro j d h
    rcases kept_covers docs [] 1 j d h with h1 | h1
    · simp at h1
    · exact h1

/-- Witness for C5 on a list whose first and third documents share a
title: the duplicate is suppressed and the first occurrence is kept. -/
theorem C5_witness :
    ((kept_with_index docs_dup_titles [] 1).map (fun p => doc_title p.2)).Nodup ∧
    docs_dup_titles[(2 : Nat) - 1]? = some doc_no_url ∧
    doc_title doc_with_url
      ∈ (kept_with_index docs_dup_titles [] 1).map (fun p => doc_title p.2) :=
  ⟨(C5_context_dedup_by_title docs_dup_titles).2.1,
   ((C5_context_dedup_by_title docs_dup_titles).2.2.1 (2, doc_no_url) (by decide)).1,
   (C5_context_dedup_by_title docs_dup_titles).2.2.2 0 doc_with_url (by decide)⟩

/-! ## C1: idempotent indexing -/

theorem upsert_entry_fst (es : Collection) (id : String) (d : Doc) :
    (∀ x ∈ es.map Prod.fst, x ∈ (upsert_entry es id d).map Prod.fst) ∧
    id ∈ (upsert_entry es id d).map Prod.fst := by
  unfold upsert_entry
  by_cases h : es.any (fun e => e.1 = id) = true
  · rw [if_pos h]
    have hmap : (es.map (fun e => if e.1 = id then (id, d) else e)).map Prod.fst
        = es.map Prod.fst := by
      rw [List.map_map]
      apply List.map_congr_left
      intro e _
      by_cases he : e.1 = id
      · simp [he]
      · simp [he]
    constructor
    · intro x hx
      rw [hmap]
      exact hx
    · rw [hmap]
      rcases List.any_eq_true.mp h with ⟨e, he, heq⟩
      have heq2 : e.1 = id := by simpa using heq
      rw [← heq2]
      exact List.mem_map_of_mem Prod.fst he
  · rw [if_neg h]
    constructor
    · intro x hx
      rw [List.map_append]
      exact List.mem_append_left _ hx
    · rw [List.map_append]
      exact List.mem_append_right _ (by simp)

theorem fold_upsert_fst (pairs : List (String × Doc)) :
    ∀ es : Collection,
      (∀ x ∈ es.map Prod.fst,
        x ∈ (pairs.foldl (fun es2 p => upsert_entry es2 p.1 p.2) es).map Prod.fst) ∧
      (∀ p ∈ pairs,
        p.1 ∈ (pairs.foldl (fun es2 p => upsert_entry es2 p.1 p.2) es).map Prod.fst) := by
  induction pairs with
  | nil =>
    intro es
    exact ⟨fun x hx => hx, fun p hp => absurd hp (by simp)⟩
  | cons q rest ih =>
    intro es
    constructor
    · intro x hx
      simp only [List.foldl_cons]
      exact (ih _).1 x ((upsert_entry_fst es q.1 q.2).1 x hx)
    · intro p hp
      simp only [List.foldl_cons]
      rcases List.mem_cons.mp hp with rfl | hp
      · exact (ih _).1 p.1 (upsert_entry_fst es p.1 p.2).2
      · exact (ih _).2 p hp

theorem lookup_map_update {β : Type} (name : String) (f : β → β) :
    ∀ (l : List (String × β)) (es : β), List.lookup name l = some es →
      List.lookup name (l.map (fun c => if c.1 = name then (c.1, f c.2) else c))
        = some (f es) := by
  intro l
  induction l with
  | nil =>
    intro es h
    simp [List.lookup] at h
  | cons x xs ih =>
    intro es h
    rcases x with ⟨k, v⟩
    by_cases hk : name = k
    · rw [lookup_cons_unfold, if_pos hk] at h
      have hv := Option.some.inj h
      simp only [List.map_cons, if_pos hk.symm]
      rw [lookup_cons_unfold, if_pos hk, hv]
    · rw [lookup_cons_unfold, if_neg hk] at h
      simp only [List.map_cons]
      rw [if_neg (fun hc => hk (Eq.symm hc))]
      rw [lookup_cons_unfold, if_neg hk]
      exact ih es h

theorem add_documents_lookup (st : AppState) (name : String) (pairs : List (String × Doc))
    (es : Collection) (h : List.lookup name st.collections = some es) :
    List.lookup name (add_documents st name pairs).collections
      = some (pairs.foldl (fun es2 p => upsert_entry es2 p.1 p.2) es) := by
  unfold add_documents
  exact lookup_map_update name (fun v => pairs.foldl (fun es2 p => upsert_entry es2 p.1 p.2) v)
    st.collections es h

theorem get_vector_store_cached (st : AppState) (h : String) (hv : st.vector_store = some h) :
    get_vector_store st = (h, st) := by
  unfold get_vector_store
  rw [hv]

theorem get_vector_store_spec (st : AppState) (hwf : cache_consistent st) :
    (get_vector_store st).2.vector_store = some (get_vector_store st).1 ∧
    (List.lookup (get_vector_store st).1 (get_vector_store st).2.collections).isSome = true := by
  cases hv : st.vector_store with
  | some h =>
    rw [get_vector_store_cached st h hv]
    exact ⟨hv, hwf h hv⟩
  | none =>
    have hgvs : get_vector_store st =
        (COLLECTION_NAME,
         { get_or_create_collection st COLLECTION_NAME with vector_store := some COLLECTION_NAME }) := by
      unfold get_vector_store
      rw [hv]
    rw [hgvs]
    refine ⟨rfl, ?_⟩
    unfold get_or_create_collection
    by_cases hex : (List.lookup COLLECTION_NAME st.collections).isSome = true
    · rw [if_pos hex]
      exact hex
    · rw [if_neg hex]
      have hnone : List.lookup COLLECTION_NAME st.collections = none := by
        cases hl : List.lookup COLLECTION_NAME st.collections with
        | none => rfl
        | some v =>
          rw [hl] at hex
          simp at hex
      simp only []
      rw [lookup_append_of_none _ _ _ hnone, lookup_cons_unfold, if_pos rfl]
      rfl

theorem index_articles_run (st : AppState) (articles : List Article)
    (hA : articles.isEmpty = false) :
    index_articles st articles =
      (if (index_new_docs st articles).isEmpty then (0, (get_vector_store st).2)
       else ((index_new_docs st articles).length,
         add_documents (get_vector_store st).2 (get_vector_store st).1
           (((index_new_docs st articles).map doc_id).zip (index_new_docs st articles)))) := by
  unfold index_articles index_new_docs
  rw [if_neg (by simp [hA])]

theorem index_articles_all_present (st2 : AppState) (articles : List Article) (h : String)
    (hA : articles.isEmpty = false)
    (hcache : st2.vector_store = some h)
    (hmem : ∀ d ∈ articles_to_documents articles,
      doc_id d ∈ ((List.lookup h st2.collections).getD []).map Prod.fst) :
    index_articles st2 articles = (0, st2) := by
  have hN : index_new_docs st2 articles = [] := by
    unfold index_new_docs
    rw [get_vector_store_cached st2 h hcache]
    dsimp only
    apply List.filter_eq_nil_iff.mpr
    intro d hd
    rw [(contains_eq_mem _ _).mpr (hmem d hd)]
    simp
  rw [index_articles_run st2 articles hA, hN, get_vector_store_cached st2 h hcache]
  rfl

theorem index_articles_first (st : AppState) (articles : List Article)
    (hwf : cache_consistent st) (hA : articles.isEmpty = false) :
    ∃ h : String,
      (index_articles st articles).2.vector_store = some h ∧
      ∀ d ∈ articles_to_documents articles,
        doc_id d ∈ ((List.lookup h (index_articles st articles).2.collections).getD []).map
          Prod.fst := by
  obtain ⟨hv, hsome⟩ := get_vector_store_spec st hwf
  obtain ⟨es, hes⟩ := Option.isSome_iff_exists.mp hsome
  have hrun := index_articles_run st articles hA
  by_cases hN : (index_new_docs st articles).isEmpty = true
  · rw [hrun, if_pos hN]
    refine ⟨(get_vector_store st).1, hv, ?_⟩
    intro d hd
    have hnil : index_new_docs st articles = [] := List.isEmpty_iff.mp hN
    unfold index_new_docs at hnil
    have hpred := List.filter_eq_nil_iff.mp hnil d hd
    rw [hes] at hpred
    rw [hes]
    simp only [Option.getD_some] at hpred ⊢
    simpa using hpred
  · rw [hrun, if_neg hN]
    refine ⟨(get_vector_store st).1, ?_, ?_⟩
    · show (add_documents _ _ _).vector_store = _
      unfold add_documents
      exact hv
    · intro d hd
      show doc_id d ∈ ((List.lookup (get_vector_store st).1
        (add_documents (get_vector_store st).2 (get_vector_store st).1
          (((index_new_docs st articles).map doc_id).zip
            (index_new_docs st articles))).collections).getD []).map Prod.fst
      rw [add_documents_lookup _ _ _ es hes]
      simp only [Option.getD_some]
      by_cases hc : doc_id d ∈ es.map Prod.fst
      · exact (fold_upsert_fst _ es).1 _ hc
      · have hdN : d ∈ index_new_docs st articles := by
          unfold index_new_docs
          apply List.mem_filter.mpr
          refine ⟨hd, ?_⟩
          rw [hes]
          simp only [Option.getD_some]
          simp only [Bool.not_eq_true']
          exact (Bool.not_eq_true _).mp (fun hcc => hc ((contains_eq_mem _ _).mp hcc))
        have hzip : (((index_new_docs st articles).map doc_id).zip
            (index_new_docs st articles)).map Prod.fst
            = (index_new_docs st articles).map doc_id :=
          List.map_fst_zip _ _ (by rw [List.length_map])
        have hid : doc_id d ∈ (((index_new_docs st articles).map doc_id).zip
            (index_new_docs st articles)).map Prod.fst := by
          rw [hzip]
          exact List.mem_map_of_mem doc_id hdN
        rcases List.mem_map.mp hid with ⟨p, hp, hpeq⟩
        rw [← hpeq]
        exact (fold_upsert_fst _ es).2 p hp

/-- C1: indexing is idempotent.  From any reachable module state, after
indexArticles(A) completes, a second indexArticles(A) with the same
input returns 0 newly indexed chunks and leaves the whole store state
— in particular the index entry count — unchanged: every candidate
chunkId (articleId + "_" + chunkIndex) is already present and is
filtered out before the upsert. -/
theorem C1_index_idempotent (st : AppState) (articles : List Article)
    (hwf : cache_consistent st) :
    (index_articles (index_articles st articles).2 articles).1 = 0 ∧
    (index_articles (index_articles st articles).2 articles).2 = (index_articles st articles).2 ∧
    (get_collection_stats (index_articles (index_articles st articles).2 articles).2).document_count
      = (get_collection_stats (index_articles st articles).2).document_count := by
  by_cases hA : articles.isEmpty = true
  · have h0 : index_articles st articles = (0, st) := by
      unfold index_articles
      rw [if_pos hA]
    have h1 : index_articles (index_articles st articles).2 articles = (0, st) := by
      rw [h0]
      unfold index_articles
      rw [if_pos hA]
    rw [h1, h0]
    exact ⟨rfl, rfl, rfl⟩
  · have hA2 : articles.isEmpty = false := by
      rwa [Bool.not_eq_true] at hA
    obtain ⟨h, hcache, hmem⟩ := index_articles_first st articles hwf hA2
    have hsec := index_articles_all_present _ articles h hA2 hcache hmem
    rw [hsec]
    exact ⟨rfl, rfl, rfl⟩

/-- Witness for C1 from the empty initial state with one article. -/
theorem C1_witness :
    cache_consistent { collections := [], vector_store := none } ∧
    (index_articles
      (index_articles { collections := [], vector_store := none } [article_fix_b]).2
      [article_fix_b]).1 = 0 :=
  ⟨fun _ hh => Option.noConfusion hh,
   (C1_index_idempotent { collections := [], vector_store := none } [article_fix_b]
      (fun _ hh => Option.noConfusion hh)).1⟩

/-! ## C2: chunk reconstruction -/

theorem pyJoin_nil_sep : ∀ L : List Chars, pyJoin [] L = L.flatten := by
  intro L
  induction L with
  | nil => rfl
  | cons x xs ih =>
    cases xs with
    | nil => simp [pyJoin]
    | cons y ys =>
      show x ++ [] ++ pyJoin [] (y :: ys) = (x :: y :: ys).flatten
      rw [ih]
      simp

theorem pyJoin_cons_ne (sep : Chars) (x : Chars) (L : List Chars) (h : L ≠ []) :
    pyJoin sep (x :: L) = x ++ sep ++ pyJoin sep L := by
  cases L with
  | nil => exact absurd rfl h
  | cons y ys => rfl

theorem isPrefixB_append_drop : ∀ (p l : Chars), isPrefixB p l = true → p ++ l.drop p.length = l := by
  intro p
  induction p with
  | nil =>
    intro l _
    simp
  | cons a as ih =>
    intro l h
    cases l with
    | nil => simp [isPrefixB] at h
    | cons b bs =>
      simp only [isPrefixB, Bool.and_eq_true, beq_iff_eq] at h
      simp only [List.cons_append, List.length_cons, List.drop_succ_cons]
      rw [h.1, ih bs h.2]

theorem splitOnCore_ne_nil (sh : Char) (st : Chars) :
    ∀ (text skip cur : Chars), splitOnCore sh st text skip cur ≠ [] := by
  intro text
  induction text with
  | nil =>
    intro skip cur
    simp [splitOnCore]
  | cons c rest ih =>
    intro skip cur
    cases skip with
    | nil =>
      simp only [splitOnCore]
      split
      · simp
      · exact ih [] (c :: cur)
    | cons s ss =>
      simp only [splitOnCore]
      exact ih ss cur

theorem pyJoin_splitOnCore (sh : Char) (st : Chars) :
    ∀ (text skip cur : Chars),
      pyJoin (sh :: st) (splitOnCore sh st text skip cur)
        = cur.reverse ++ text.drop skip.length := by
  intro text
  induction text with
  | nil =>
    intro skip cur
    simp [splitOnCore, pyJoin]
  | cons c rest ih =>
    intro skip cur
    cases skip with
    | cons s ss =>
      simp only [splitOnCore]
      rw [ih ss cur, List.length_cons, List.drop_succ_cons]
    | nil =>
      simp only [splitOnCore]
      split
      case isTrue hp =>
        rw [pyJoin_cons_ne _ _ _ (splitOnCore_ne_nil sh st rest st []), ih st []]
        simp only [List.reverse_nil, List.nil_append, List.length_nil, List.drop_zero]
        have hap := isPrefixB_append_drop (sh :: st) (c :: rest) hp
        rw [List.length_cons, List.drop_succ_cons] at hap
        rw [List.append_assoc, hap]
      case isFalse hp =>
        rw [ih [] (c :: cur)]
        simp

theorem flatten_keep (sep : Chars) : ∀ (ps : List Chars) (p : Chars),
    (p :: ps.map (fun q => sep ++ q)).flatten = pyJoin sep (p :: ps) := by
  intro ps
  induction ps with
  | nil =>
    intro p
    simp [pyJoin]
  | cons q qs ih =>
    intro p
    have h2 := ih q
    simp only [List.map_cons, List.flatten_cons] at h2 ⊢
    rw [pyJoin_cons_ne sep p (q :: qs) (by simp), ← h2]
    simp [List.append_assoc]

theorem flatten_filter_nonempty :
    ∀ L : List Chars, (L.filter (fun s => !s.isEmpty)).flatten = L.flatten := by
  intro L
  induction L with
  | nil => rfl
  | cons x xs ih =>
    cases x with
    | nil => simpa [List.filter] using ih
    | cons c cs => simp [List.filter, ih]

theorem swr_flatten (text sep : Chars) : (split_text_with_regex text sep).flatten = text := by
  unfold split_text_with_regex
  cases sep with
  | nil =>
    simp only []
    rw [flatten_filter_nonempty]
    induction text with
    | nil => rfl
    | cons c cs ih => simpa using ih
  | cons sh st =>
    simp only []
    cases hsp : splitOnCore sh st text [] [] with
    | nil => exact absurd hsp (splitOnCore_ne_nil sh st text [] [])
    | cons p ps =>
      rw [flatten_filter_nonempty, flatten_keep]
      have hj := pyJoin_splitOnCore sh st text [] []
      rw [hsp] at hj
      simpa using hj

theorem pyStrip_ifx (l : Chars) : pyStrip l <:+: l := by
  unfold pyStrip
  have h1 : l.dropWhile isWs <:+ l := List.dropWhile_suffix isWs
  obtain ⟨t, ht⟩ := List.dropWhile_suffix (l := (l.dropWhile isWs).reverse) isWs
  have hpfx : ((l.dropWhile isWs).reverse.dropWhile isWs).reverse <+: l.dropWhile isWs := by
    refine ⟨t.reverse, ?_⟩
    rw [← List.reverse_append, ht, List.reverse_reverse]
  exact ifx_trans (ifx_of_pfx hpfx) (ifx_of_sfx h1)

theorem flatten_ifx {w L : List Chars} (h : w <:+: L) : w.flatten <:+: L.flatten := by
  obtain ⟨a, b, hab⟩ := h
  exact ⟨a.flatten, b.flatten, by rw [← List.flatten_append, ← List.flatten_append, hab]⟩

theorem merge_pop_suffix (cs co sepLen dLen : Int) :
    ∀ (current : List Chars) (total : Int),
      (merge_pop cs co sepLen dLen current total).1 <:+ current := by
  intro current
  induction current with
  | nil =>
    intro total
    simp [merge_pop]
  | cons x xs ih =>
    intro total
    simp only [merge_pop]
    by_cases hc : (total > co ∨
        (total + dLen + (if (x :: xs).length > 1 then sepLen else 0) > cs ∧ total > 0))
    · rw [if_pos hc]
      exact (ih _).trans (List.suffix_cons x xs)
    · rw [if_neg hc]

theorem join_docs_nil_mem (current : List Chars) (t : Chars)
    (h : t ∈ (join_docs current []).toList) : t = pyStrip current.flatten := by
  have he : join_docs current [] = (if (pyStrip current.flatten).isEmpty then none
      else some (pyStrip current.flatten)) := by
    unfold join_docs
    dsimp only
    rw [pyJoin_nil_sep]
  rw [he] at h
  by_cases hc : (pyStrip current.flatten).isEmpty = true
  · rw [if_pos hc] at h
    simp at h
  · rw [if_neg hc] at h
    simpa using h

theorem merge_loop_window (cs co : Int) (S : List Chars) :
    ∀ (rem current : List Chars) (total : Int) (docs : List Chars) (pre : List Chars),
      S = pre ++ current ++ rem →
      (∀ doc ∈ docs, ∃ w, w <:+: S ∧ doc = pyStrip w.flatten) →
      ∀ doc ∈ merge_loop cs co 0 [] rem current total docs,
        ∃ w, w <:+: S ∧ doc = pyStrip w.flatten := by
  intro rem
  induction rem with
  | nil =>
    intro current total docs pre hS hdocs doc hdoc
    simp only [merge_loop] at hdoc
    rcases List.mem_append.mp hdoc with h | h
    · exact hdocs doc h
    · exact ⟨current, ⟨pre, [], hS.symm⟩, join_docs_nil_mem current doc h⟩
  | cons d rest ih =>
    intro current total docs pre hS hdocs doc hdoc
    simp only [merge_loop] at hdoc
    by_cases hem : (total + (d.length : Int) + (if current.length > 0 then 0 else 0) > cs
        ∧ current.length > 0)
    · rw [if_pos hem, if_pos hem] at hdoc
      generalize hp1 : (merge_pop cs co 0 ((d.length : Nat) : Int) current total).1 = p1 at hdoc
      obtain ⟨a, ha⟩ : p1 <:+ current :=
        hp1 ▸ merge_pop_suffix cs co 0 (d.length : Int) current total
      refine ih (p1 ++ [d]) _ _ (pre ++ a) ?_ ?_ doc hdoc
      · rw [hS, ← ha]
        simp [List.append_assoc]
      · intro t ht
        rcases List.mem_append.mp ht with h | h
        · exact hdocs t h
        · exact ⟨current, ⟨pre, d :: rest, hS.symm⟩, join_docs_nil_mem current t h⟩
    · rw [if_neg hem, if_neg hem] at hdoc
      refine ih (current ++ [d]) _ _ pre ?_ hdocs doc hdoc
      rw [hS]
      simp [List.append_assoc]

theorem merge_splits_window (cs co : Int) (good : List Chars) :
    ∀ doc ∈ merge_splits cs co good [], ∃ w, w <:+: good ∧ doc = pyStrip w.flatten := by
  intro doc hdoc
  unfold merge_splits at hdoc
  exact merge_loop_window cs co good good [] 0 [] [] (by simp)
    (fun t ht => absurd ht (by simp)) doc hdoc

theorem choose_sep_go_len (text dflt : Chars) :
    ∀ seps : List Chars, (choose_sep_go text dflt seps).2.length ≤ seps.length := by
  intro seps
  induction seps with
  | nil => simp [choose_sep_go]
  | cons s rest ih =>
    simp only [choose_sep_go]
    split
    · simp
    · split
      · simp
      · exact le_trans ih (Nat.le_succ _)

theorem choose_sep_snd_lt (text s0 : Chars) (srest : List Chars) :
    (choose_sep text (s0 :: srest)).2.length < (s0 :: srest).length := by
  simp only [choose_sep, choose_sep_go]
  split
  · simp
  · split
    · simp
    · exact Nat.lt_succ_of_le (choose_sep_go_len _ _ srest)

theorem split_flush_window (cs co : Int) (S : List Chars) :
    ∀ (tagged : List (Chars ⊕ List Chars)) (rem good final pre : List Chars),
      S = pre ++ good ++ rem →
      List.Forall₂ (fun tg s => tg = Sum.inl s ∨ ∃ L, tg = Sum.inr L ∧ ∀ c ∈ L, c <:+: s)
        tagged rem →
      (∀ c ∈ final, c <:+: S.flatten) →
      ∀ c ∈ split_flush_go cs co tagged good final, c <:+: S.flatten := by
  intro tagged
  induction tagged with
  | nil =>
    intro rem good final pre hS hrel hfin c hc
    cases hrel
    simp only [split_flush_go] at hc
    rcases List.mem_append.mp hc with h | h
    · exact hfin c h
    · by_cases hg : good.isEmpty = true
      · rw [if_pos hg] at h
        simp at h
      · rw [if_neg hg] at h
        obtain ⟨w, hw, hcw⟩ := merge_splits_window cs co good c h
        rw [hcw]
        have h1 : good <:+: S := ⟨pre, [], hS.symm⟩
        exact ifx_trans (ifx_trans (pyStrip_ifx _) (flatten_ifx hw)) (flatten_ifx h1)
  | cons tg tagged2 ih =>
    intro rem good final pre hS hrel hfin c hc
    cases hrel with
    | cons hrel1 hrel2 =>
      rename_i r rem2
      rcases hrel1 with hinl | ⟨L, hinr, hL⟩
      · subst hinl
        simp only [split_flush_go] at hc
        refine ih rem2 (good ++ [r]) final pre ?_ hrel2 hfin c hc
        rw [hS]
        simp [List.append_assoc]
      · subst hinr
        simp only [split_flush_go] at hc
        refine ih rem2 []
          ((final ++ (if good.isEmpty then [] else merge_splits cs co good [])) ++ L)
          (pre ++ good ++ [r]) ?_ hrel2 ?_ c hc
        · rw [hS]
          simp [List.append_assoc]
        · intro t ht
          rcases List.mem_append.mp ht with h | h
          · rcases List.mem_append.mp h with h1 | h1
            · exact hfin t h1
            · by_cases hg : good.isEmpty = true
              · rw [if_pos hg] at h1
                simp at h1
              · rw [if_neg hg] at h1
                obtain ⟨w, hw, hcw⟩ := merge_splits_window cs co good t h1
                rw [hcw]
                have h1g : good <:+: S := ⟨pre, r :: rem2, hS.symm⟩
                exact ifx_trans (ifx_trans (pyStrip_ifx _) (flatten_ifx hw))
                  (flatten_ifx h1g)
          · have hrS : [r] <:+: S := ⟨pre ++ good, rem2, by rw [hS]; simp [List.append_assoc]⟩
            have hrfl : r <:+: S.flatten := by
              have h2 := flatten_ifx hrS
              simpa using h2
            exact ifx_trans (hL t h) hrfl

theorem split_tag_rel (cs co : Int) (nseps : List Chars)
    (hrec : ∀ (t c : Chars), c ∈ split_text_rec cs co nseps t → c <:+: t) :
    ∀ splits : List Chars,
      List.Forall₂ (fun tg s => tg = Sum.inl s ∨ ∃ L, tg = Sum.inr L ∧ ∀ c ∈ L, c <:+: s)
        (split_tag cs co nseps splits) splits := by
  intro splits
  induction splits with
  | nil =>
    simp only [split_tag]
    exact List.Forall₂.nil
  | cons s ss ih =>
    simp only [split_tag]
    refine List.Forall₂.cons ?_ ih
    by_cases h1 : ((s.length : Int) < cs)
    · rw [if_pos h1]
      exact Or.inl rfl
    · rw [if_neg h1]
      by_cases h2 : nseps.isEmpty = true
      · rw [if_pos h2]
        refine Or.inr ⟨[s], rfl, fun c hc => ?_⟩
        simp at hc
        subst hc
        exact List.infix_rfl
      · rw [if_neg h2]
        exact Or.inr ⟨_, rfl, fun c hc => hrec s c hc⟩

theorem split_text_rec_infix_aux (cs co : Int) :
    ∀ (n : Nat) (seps : List Chars), seps.length ≤ n →
      ∀ (text c : Chars), c ∈ split_text_rec cs co seps text → c <:+: text := by
  intro n
  induction n with
  | zero =>
    intro seps hlen text c hc
    have hnil : seps = [] := List.length_eq_zero.mp (Nat.le_zero.mp hlen)
    subst hnil
    simp only [split_text_rec] at hc
    simp at hc
    subst hc
    exact List.infix_rfl
  | succ n ihn =>
    intro seps hlen text c hc
    cases seps with
    | nil =>
      simp only [split_text_rec] at hc
      simp at hc
      subst hc
      exact List.infix_rfl
    | cons s0 srest =>
      simp only [split_text_rec] at hc
      have hlt := choose_sep_snd_lt text s0 srest
      have hle : (choose_sep text (s0 :: srest)).2.length ≤ n := by
        simp only [List.length_cons] at hlt hlen
        omega
      have hrec : ∀ (t c2 : Chars),
          c2 ∈ split_text_rec cs co (choose_sep text (s0 :: srest)).2 t → c2 <:+: t :=
        fun t c2 => ihn _ hle t c2
      have hrel := split_tag_rel cs co _ hrec
        (split_text_with_regex text (choose_sep text (s0 :: srest)).1)
      have hres := split_flush_window cs co
        (split_text_with_regex text (choose_sep text (s0 :: srest)).1)
        (split_tag cs co (choose_sep text (s0 :: srest)).2
          (split_text_with_regex text (choose_sep text (s0 :: srest)).1))
        (split_text_with_regex text (choose_sep text (s0 :: srest)).1) [] [] []
        (by simp) hrel (fun t ht => absurd ht (by simp)) c hc
      rw [swr_flatten text (choose_sep text (s0 :: srest)).1] at hres
      exact hres

/-- C2 amended: every chunk the splitter produces is a contiguous
substring of the input text — characters are never altered, invented
or reordered — but whitespace at chunk boundaries is dropped by the
stripping step of the merge, so the concatenation of the chunks with
overlaps removed need not reproduce the input. -/
theorem C2_amended_chunks_are_substrings (cs co : Int) (seps : List Chars) (text : Chars) :
    ∀ c ∈ split_text_rec cs co seps text, c <:+: text :=
  fun c hc => split_text_rec_infix_aux cs co seps.length seps (le_refl _) text c hc

/-- C2 counterexample: the configured splitter turns the two-character
text " a" into the single chunk "a" — the leading whitespace is
stripped away — so no overlap-removing concatenation of the chunks can
reproduce the original text: a character has been dropped. -/
theorem C2_counterexample :
    split_text " a" = ["a"] ∧
    remove_overlap_concat ((split_text " a").map String.data) ≠ " a".data := by
  have h : split_text_rec (CHUNK_SIZE : Int) (CHUNK_OVERLAP : Int) default_separators " a".data
      = [['a']] := by
    have hd : " a".data = [' ', 'a'] := rfl
    rw [hd]
    simp [split_text_rec, split_tag, choose_sep, choose_sep_go, containsSub, isPrefixB,
      split_text_with_regex, splitOnCore, split_flush_go, merge_splits, merge_loop,
      merge_pop, join_docs, pyJoin, pyStrip, isWs, Char.isWhitespace, default_separators,
      CHUNK_SIZE, CHUNK_OVERLAP]
  constructor
  · unfold split_text
    rw [h]
    rfl
  · unfold split_text
    rw [h]
    decide

/-- Witness for C2 amended: the chunk produced from " a" is indeed a
contiguous substring of the input. -/
theorem C2_amended_witness :
    ['a'] ∈ split_text_rec (CHUNK_SIZE : Int) (CHUNK_OVERLAP : Int) default_separators [' ', 'a']
    ∧ ['a'] <:+: [' ', 'a'] := by
  have hmem : ['a'] ∈ split_text_rec (CHUNK_SIZE : Int) (CHUNK_OVERLAP : Int)
      default_separators [' ', 'a'] := by
    simp [split_text_rec, split_tag, choose_sep, choose_sep_go, containsSub, isPrefixB,
      split_text_with_regex, splitOnCore, split_flush_go, merge_splits, merge_loop,
      merge_pop, join_docs, pyJoin, pyStrip, isWs, Char.isWhitespace, default_separators,
      CHUNK_SIZE, CHUNK_OVERLAP]
  exact ⟨hmem, C2_amended_chunks_are_substrings (CHUNK_SIZE : Int) (CHUNK_OVERLAP : Int)
    default_separators [' ', 'a'] ['a'] hmem⟩
